import Mathlib

/-!
Verification of the Dataset Discovery & Selection Engine of the
AEAExtensions repository (src/run.py).

The engine lives in `main` of run.py: file enumeration over a data
directory (lines 168-181), per-file sampling and heuristic scoring in the
nested function `infer_file` (lines 184-225), primary-file selection
(lines 229-245), catalog persistence (lines 247-261), and the catalog-only
early exit (lines 263-265) before the analysis agent is constructed.

The embedding below is a shallow one: filesystem and reader effects are
oracles gathered in an `Env` structure; every Python step with observable
behavior in the claims becomes a pure Lean function on those oracles.
-/

namespace AEA

/-- The tabular result of a successful pandas read: the number of rows of
the (sampled) frame and its column names in order.  The column count
reported by `df.shape` is always the length of `df.columns`, so it is
derived rather than stored. -/
structure Frame where
  nrows : Nat
  cols : List String
deriving Repr, DecidableEq

/-- Number of columns, `df.shape[1]`. -/
def Frame.ncols (df : Frame) : Nat := df.cols.length

/-- Outcome of attempting to read a candidate file with the
format-appropriate pandas reader: either a frame, or a raised exception
carrying its `str(e)` message. -/
inductive ReadResult where
  | ok (df : Frame)
  | exn (msg : String)
deriving Repr, DecidableEq

/-- The four heuristic boolean signals of run.py lines 210-213. -/
structure Signals where
  has_unit : Bool
  has_time : Bool
  has_treat : Bool
  has_outcome : Bool
deriving Repr, DecidableEq

/-- One candidate record, the dict built by `infer_file`.  Optional fields
model presence of the corresponding dict key: the error dicts of lines
201 and 206 carry only path/ext/size/error, the success dict of lines
221-225 carries everything but `error`. -/
structure Record where
  path : String
  ext : String
  size : Nat
  nrows : Option Nat := none
  ncols : Option Nat := none
  columns : Option (List String) := none
  score : Option ℚ := none
  signals : Option Signals := none
  error : Option String := none
deriving Repr, DecidableEq

/-- Oracles for the effects the engine performs: `os.path.isdir`,
`glob.glob(os.path.join(dir, "**", pat), recursive=True)`,
`os.path.getsize`, the pandas read dispatched on the extension,
`os.path.abspath`, and whether the catalog write succeeds. -/
structure Env where
  isdir : String → Bool
  glob : String → String → List String
  size : String → Nat
  read : String → ReadResult
  abspath : String → String
  writeOk : Bool

/-- Split a character list on a separator character; like Python's
`str.split(sep)`, adjacent separators and boundary separators produce
empty groups. -/
def splitChar (sep : Char) : List Char → List (List Char)
  | [] => [[]]
  | c :: rest =>
    let r := splitChar sep rest
    if c = sep then [] :: r
    else
      match r with
      | [] => [[c]]
      | g :: gs => (c :: g) :: gs

/-- `str.lower()`, over the characters of the string. -/
def lowerStr (s : String) : String :=
  String.mk (s.toList.map Char.toLower)

/-- `os.path.basename` on a POSIX path: the part after the last slash. -/
def basename (p : String) : String :=
  String.mk ((splitChar '/' p.toList).getLastD [])

/-- Helper for `os.path.splitext`: scanning the basename's characters,
return the suffix starting at the last dot, provided some character
strictly before that dot is not itself a dot (leading dots of a basename
never start an extension); `seen` records whether a non-dot character has
occurred so far. -/
def extTail : List Char → Bool → Option (List Char)
  | [], _ => none
  | c :: rest, seen =>
    if c = '.' then
      match extTail rest seen with
      | some e => some e
      | none => if seen then some ('.' :: rest) else none
    else extTail rest true

/-- `os.path.splitext(fp)[1].lower()` of run.py line 185. -/
def fileExt (p : String) : String :=
  lowerStr (String.mk (((extTail (basename p).toList false)).getD []))

/-- The four extensions dispatched to a pandas reader
(run.py lines 190-199). -/
def supportedExt (ext : String) : Bool :=
  ext = ".csv" || ext = ".parquet" || ext = ".feather" || ext = ".dta"

/-- Keyword set for `has_time` (run.py line 210). -/
def timeKeys : List String := ["time", "year", "date", "t"]

/-- Keyword set for `has_unit` (run.py line 211). -/
def unitKeys : List String := ["unit", "id", "panelid", "county", "state", "region", "firm"]

/-- Keyword set for `has_treat` (run.py line 212). -/
def treatKeys : List String := ["treat", "treated", "policy", "post", "d"]

/-- Keyword set for `has_outcome` (run.py line 213). -/
def outcomeKeys : List String := ["y", "outcome", "dep", "dependent", "lhs"]

/-- The key set of the dict `colset = \x7bc.lower(): c for c in cols\x7d`
(run.py line 209): membership of `k in colset` is membership of `k` among
the lowercased column names. -/
def lowerCols (cols : List String) : List String :=
  cols.map lowerStr

/-- `any(k in colset for k in keys)` against the lowercase lookup. -/
def anyKey (keys lc : List String) : Bool :=
  keys.any (fun k => lc.contains k)

/-- The four signals computed from the full column list
(run.py lines 209-213). -/
def signalsOf (cols : List String) : Signals :=
  { has_unit := anyKey unitKeys (lowerCols cols)
    has_time := anyKey timeKeys (lowerCols cols)
    has_treat := anyKey treatKeys (lowerCols cols)
    has_outcome := anyKey outcomeKeys (lowerCols cols) }

/-- The score accumulation of run.py lines 215-219, over exact rationals:
`score = 0; score += 3 if has_unit and has_time else 0; score += 2 if
has_treat else 0; score += 1 if has_outcome else 0;
score += 0.5 * (nrows or 0) / 1_000_000 + 0.1 * (ncols or 0)`.
In this branch `nrows`/`ncols` are the ints of `df.shape`, so
`(nrows or 0) = nrows` and `(ncols or 0) = ncols`. -/
def scoreOf (s : Signals) (nrows ncols : Nat) : ℚ :=
  ((0 : ℚ)
    + (if s.has_unit ∧ s.has_time then 3 else 0)
    + (if s.has_treat then 2 else 0)
    + (if s.has_outcome then 1 else 0))
    + ((1 / 2) * (nrows : ℚ) / 1000000 + (1 / 10) * (ncols : ℚ))

/-- The nested `infer_file` of run.py lines 184-225: dispatch on the
lowercased extension; an extension outside the four supported ones yields
the `unsupported_ext` error record before any read (line 201); an
exception during a read yields an error record carrying `str(e)`
(lines 205-206); a successful read yields the full record of lines
221-225, whose `columns` field is `cols[:20]` (line 204) while signals
and score are computed from the complete column list. -/
def infer_file (env : Env) (fp : String) : Record :=
  let ext := fileExt fp
  let size := env.size fp
  if supportedExt ext then
    match env.read fp with
    | .exn e => { path := fp, ext := ext, size := size, error := some e }
    | .ok df =>
      let cols := df.cols
      let sample_cols := cols.take 20
      let s := signalsOf cols
      { path := fp, ext := ext, size := size
        nrows := some df.nrows, ncols := some df.ncols
        columns := some sample_cols
        score := some (scoreOf s df.nrows df.ncols)
        signals := some s }
  else
    { path := fp, ext := ext, size := size, error := some "unsupported_ext" }

/-! ### Enumeration (run.py lines 168-181) -/

/-- `str.strip()`: remove leading and trailing whitespace. -/
def trimStr (s : String) : String :=
  String.mk (((s.toList.dropWhile Char.isWhitespace).reverse.dropWhile
    Char.isWhitespace).reverse)

/-- Line 174: `patterns = [p.strip() for p in (args.data_glob or "").split(",")
if p.strip()]`. -/
def parsePatterns (s : String) : List String :=
  ((splitChar ',' s.toList).map (fun g => trimStr (String.mk g))).filter
    (fun p => p ≠ "")

/-- Lexicographic comparison of character lists under the code-point
order, the order Python uses to compare strings. -/
def chLe : List Char → List Char → Bool
  | [], _ => true
  | _ :: _, [] => false
  | a :: as, b :: bs => if a = b then chLe as bs else decide (a < b)

/-- Python's lexicographic `<=` on strings. -/
def strLeP (a b : String) : Prop := chLe a.toList b.toList = true

instance (a b : String) : Decidable (strLeP a b) := by
  unfold strLeP; infer_instance

/-- Lines 175-178: extend `files` with the recursive glob of each pattern,
then `files = sorted(set(files))`.  `sorted(set(..))` is modelled as
deduplication followed by a sort under the lexicographic string order;
the result is the unique duplicate-free sorted list with the same
members, so the choice of sorting algorithm is immaterial. -/
def enumerate (env : Env) (dir : String) (patterns : List String) : List String :=
  List.insertionSort strLeP ((patterns.map (env.glob dir)).flatten).dedup

/-! ### Primary selection (run.py lines 229-245) -/

/-- Truthiness of `c.get("error")` (line 240): `None` and the empty string
are falsy, any other string is truthy. -/
def errTruthy (c : Record) : Bool :=
  match c.error with
  | none => false
  | some s => !(s = "")

/-- The sort key of line 244:
`(c.get("score", 0), c.get("nrows") or 0, c.get("size") or 0)`. -/
def sortKey (c : Record) : ℚ × ℕ × ℕ :=
  (c.score.getD 0, c.nrows.getD 0, c.size)

/-- Lexicographic comparison of the Python key tuples. -/
def keyLe (a b : ℚ × ℕ × ℕ) : Prop :=
  a.1 < b.1 ∨ (a.1 = b.1 ∧ (a.2.1 < b.2.1 ∨ (a.2.1 = b.2.1 ∧ a.2.2 ≤ b.2.2)))

instance (a b : ℚ × ℕ × ℕ) : Decidable (keyLe a b) := by
  unfold keyLe; infer_instance

/-- Descending order on records by their key, the comparison realized by
`valid.sort(key=..., reverse=True)` (line 244).  Python's sort is stable
and `reverse=True` keeps the stability (it does not reverse ties), so the
sorted list is the unique stable descending reordering; it is realized
here by a stable insertion sort under this relation. -/
def recDesc (c d : Record) : Prop := keyLe (sortKey d) (sortKey c)

instance (c d : Record) : Decidable (recDesc c d) := by
  unfold recDesc; infer_instance

/-- The configuration errors of run.py that abort discovery with exit
code 1 (lines 170, 180, 235, 242). -/
inductive ConfigError where
  | dirNotFound
  | noFilesFound
  | primaryNotFound
  | noReadableFiles
deriving Repr, DecidableEq

instance exceptDecEq {ε α : Type} [DecidableEq ε] [DecidableEq α] :
    DecidableEq (Except ε α) := fun a b =>
  match a, b with
  | .error e₁, .error e₂ =>
    if h : e₁ = e₂ then isTrue (congrArg Except.error h)
    else isFalse (fun hc => h (Except.error.inj hc))
  | .error _, .ok _ => isFalse (fun hc => Except.noConfusion hc)
  | .ok _, .error _ => isFalse (fun hc => Except.noConfusion hc)
  | .ok a₁, .ok a₂ =>
    if h : a₁ = a₂ then isTrue (congrArg Except.ok h)
    else isFalse (fun hc => h (Except.ok.inj hc))

/-- Automatic selection, run.py lines 239-245: keep the records whose
`error` is falsy, fail when none remain, otherwise stably sort descending
by `sortKey` and return the path of the first element. -/
def selectAuto (catalog : List Record) : Except ConfigError String :=
  match List.insertionSort recDesc (catalog.filter (fun c => !errTruthy c)) with
  | [] => .error .noReadableFiles
  | m :: _ => .ok m.path

/-- Explicit override, run.py lines 230-237: the records matching the
user-supplied candidate by exact path equality or basename equality;
fail when none match, otherwise return the first match (`matched[0]`),
with no look at its error or score. -/
def selectOverride (catalog : List Record) (cand : String) :
    Except ConfigError Record :=
  match catalog.filter (fun c => c.path = cand || basename c.path = basename cand) with
  | [] => .error .primaryNotFound
  | m :: _ => .ok m

/-! ### The data-dir branch of `main` (run.py lines 168-265 and the agent
construction that follows it) -/

/-- Command-line inputs relevant to the discovery engine. -/
structure Args where
  data_dir : String
  data_glob : String
  primary_file : Option String
  catalog_only : Bool

/-- The JSON object written at lines 252-258. -/
structure SavedCatalog where
  data_dir : String
  patterns : List String
  selected : String
  files : List Record
deriving Repr, DecidableEq

/-- How the data-dir branch of `main` ends: a configuration failure
(printed message, `return 1`), the catalog-only early exit (`return 0`,
line 265), or falling through to construct and run the analysis agent on
the selected path (lines 286-314). -/
inductive MainOutcome where
  | failed (err : ConfigError)
  | exitedOk
  | ranAgent (dataPath : String)
deriving Repr, DecidableEq

/-- Observable result of the discovery engine: how the branch ended and
which catalog artifact, if any, was persisted. -/
structure MainResult where
  outcome : MainOutcome
  persisted : Option SavedCatalog
deriving Repr, DecidableEq

/-- The patterns of line 174. -/
def patternsOf (args : Args) : List String := parsePatterns args.data_glob

/-- The discovered files of lines 175-178. -/
def filesOf (env : Env) (args : Args) : List String :=
  enumerate env args.data_dir (patternsOf args)

/-- Line 227: `catalog = [infer_file(fp) for fp in files]`. -/
def catalogOf (env : Env) (args : Args) : List Record :=
  (filesOf env args).map (infer_file env)

/-- Lines 229-245: the selected primary path, by override when
`--primary-file` was given (the selected path is `matched[0]["path"]`),
automatically otherwise. -/
def selectionOf (env : Env) (args : Args) : Except ConfigError String :=
  match args.primary_file with
  | some cand =>
    match selectOverride (catalogOf env args) cand with
    | .error e => .error e
    | .ok m => .ok m.path
  | none => selectAuto (catalogOf env args)

/-- The data-dir branch of `main`, lines 168-265 plus the agent phase:
directory check (169-171), enumeration failure (179-181), selection
(229-245, a failure returns 1 before the catalog is saved), best-effort
catalog persistence (248-261, a write failure is swallowed and leaves no
artifact), catalog-only early exit (263-265), otherwise the agent runs on
the selected path. -/
def mainDir (env : Env) (args : Args) : MainResult :=
  if env.isdir args.data_dir = false then ⟨.failed .dirNotFound, none⟩
  else if filesOf env args = [] then ⟨.failed .noFilesFound, none⟩
  else
    match selectionOf env args with
    | .error e => ⟨.failed e, none⟩
    | .ok selected =>
      let persisted : Option SavedCatalog :=
        if env.writeOk then
          some ⟨env.abspath args.data_dir, patternsOf args, selected,
            catalogOf env args⟩
        else none
      if args.catalog_only then ⟨.exitedOk, persisted⟩
      else ⟨.ranAgent selected, persisted⟩

/-- The earliest record of a list attaining the maximal sort key; `none`
exactly on the empty list.  The head of the stable descending sort of
`selectAuto` is shown below to be this record, which is how the claimed
tie-breaking by discovery order is captured. -/
def firstMax : List Record → Option Record
  | [] => none
  | c :: l =>
    match firstMax l with
    | none => some c
    | some m => if recDesc c m then some c else some m

/-! ### Concrete fixtures used by the witness and counterexample
theorems -/

/-- An environment whose single readable file has the four role columns
in mixed case. -/
def envU : Env :=
  { isdir := fun d => d = "data"
    glob := fun dir pat =>
      if dir = "data" && pat = "*.csv" then ["data/a.csv"] else []
    size := fun _ => 100
    read := fun _ => .ok ⟨1000, ["Unit", "TIME", "Treat", "Y"]⟩
    abspath := fun d => "/abs/" ++ d
    writeOk := true }

/-- An environment whose reads always raise. -/
def envE : Env :=
  { envU with read := fun _ => .exn "boom" }

/-- An environment over a directory holding two csv files (one duplicated
across patterns) and nothing else. -/
def envG : Env :=
  { isdir := fun d => d = "data"
    glob := fun dir pat =>
      if dir = "data" && pat = "*.csv" then ["data/b.csv", "data/a.csv"]
      else if dir = "data" && pat = "b*" then ["data/b.csv"]
      else []
    size := fun _ => 10
    read := fun _ => .exn "parse error"
    abspath := fun d => "/abs/" ++ d
    writeOk := true }

/-- Discovery arguments over `envG` with two patterns. -/
def argsG : Args :=
  { data_dir := "data", data_glob := "*.csv,b*", primary_file := none
    catalog_only := false }

/-- Arguments naming a directory that does not exist in `envG`. -/
def argsBad : Args :=
  { argsG with data_dir := "nope" }

/-- Arguments whose patterns match nothing in `envG`. -/
def argsNone : Args :=
  { argsG with data_glob := "*.parquet" }

/-- An environment whose directory holds a single unsupported `.xlsx`
file: every record errors, so automatic selection finds no readable
file. -/
def envX : Env :=
  { isdir := fun d => d = "data"
    glob := fun dir pat =>
      if dir = "data" && pat = "*" then ["data/only.xlsx"] else []
    size := fun _ => 5
    read := fun _ => .exn "never reached"
    abspath := fun d => "/abs/" ++ d
    writeOk := true }

/-- Catalog-only arguments over `envX`, automatic mode. -/
def argsX : Args :=
  { data_dir := "data", data_glob := "*", primary_file := none
    catalog_only := true }

/-- Catalog-only arguments over `envX` with an explicit override naming
the `.xlsx` file, so selection succeeds on an errored record. -/
def argsXo : Args :=
  { argsX with primary_file := some "only.xlsx" }

/-- A frame with 21 columns whose last column is a treatment keyword in
upper case. -/
def df21 : Frame :=
  ⟨5, ["c01", "c02", "c03", "c04", "c05", "c06", "c07", "c08", "c09", "c10",
       "c11", "c12", "c13", "c14", "c15", "c16", "c17", "c18", "c19", "c20",
       "TREAT"]⟩

/-- An environment whose reads return `df21`. -/
def envW21 : Env :=
  { envU with read := fun _ => .ok df21 }

/-- A record with a truthy error, excluded from automatic selection. -/
def rErr : Record :=
  { path := "d/broken.csv", ext := ".csv", size := 50, error := some "bad utf8" }

/-- A readable record (fields beyond the key left absent so sort keys
default, which the selection must tolerate via `c.get(...)`). -/
def rA : Record :=
  { path := "d/a.csv", ext := ".csv", size := 30 }

/-- A second readable record with the same sort key as `rA`. -/
def rB : Record :=
  { path := "d/b.csv", ext := ".csv", size := 30 }

/-- An errored record reachable only by basename override. -/
def rX : Record :=
  { path := "d/sub/x.xlsx", ext := ".xlsx", size := 9
    error := some "unsupported_ext" }

/-- A small catalog mixing an errored and two readable records. -/
def catMix : List Record := [rErr, rA, rB]

/-- A catalog whose only basename match for the override is an errored
record. -/
def catOv : List Record := [rA, rX]

/-- A catalog with the same paths as `catOv` but different sizes and
error states. -/
def catOv2 : List Record := [{ rA with size := 999 }, { rX with error := none }]

/-- The catalog artifact the run of `envX` under `argsXo` persists. -/
def scX : SavedCatalog :=
  ⟨"/abs/data", ["*"], "data/only.xlsx",
   [{ path := "data/only.xlsx", ext := ".xlsx", size := 5
      error := some "unsupported_ext" }]⟩

/-! ### Order lemmas for the selection key -/

theorem keyLe_refl (a : ℚ × ℕ × ℕ) : keyLe a a := by
  unfold keyLe; tauto

theorem keyLe_total (a b : ℚ × ℕ × ℕ) : keyLe a b ∨ keyLe b a := by
  unfold keyLe
  rcases lt_trichotomy a.1 b.1 with h1 | h1 | h1
  · tauto
  · rcases lt_trichotomy a.2.1 b.2.1 with h2 | h2 | h2
    · tauto
    · rcases le_total a.2.2 b.2.2 with h3 | h3 <;> tauto
    · tauto
  · tauto

theorem keyLe_trans {a b c : ℚ × ℕ × ℕ} (hab : keyLe a b) (hbc : keyLe b c) :
    keyLe a c := by
  unfold keyLe at *
  rcases hab with h1 | ⟨h1, h2 | ⟨h2, h3⟩⟩ <;>
    rcases hbc with g1 | ⟨g1, g2 | ⟨g2, g3⟩⟩
  all_goals first
    | (left; omega)
    | (left; linarith)
    | (right; constructor; linarith; left; omega)
    | (right; constructor; linarith; right; constructor; omega; omega)

theorem keyLe_of_not_keyLe {a b : ℚ × ℕ × ℕ} (h : ¬ keyLe a b) : keyLe b a :=
  (keyLe_total a b).resolve_left h

theorem firstMax_eq_none {l : List Record} : firstMax l = none ↔ l = [] := by
  cases l with
  | nil => simp [firstMax]
  | cons c l =>
    simp only [firstMax]
    cases firstMax l with
    | none => simp
    | some m =>
      by_cases h : recDesc c m <;> simp [h]

theorem head_insertionSort_eq_firstMax (l : List Record) :
    (List.insertionSort recDesc l).head? = firstMax l := by
  induction l with
  | nil => simp [List.insertionSort, firstMax]
  | cons c l ih =>
    rw [show List.insertionSort recDesc (c :: l) =
      List.orderedInsert recDesc c (List.insertionSort recDesc l) from rfl]
    cases hs : List.insertionSort recDesc l with
    | nil =>
      have hl : l = [] := by
        have hp := List.perm_insertionSort recDesc l
        rw [hs] at hp
        exact hp.symm.eq_nil
      subst hl
      simp [List.orderedInsert, firstMax]
    | cons m rest =>
      have hm : firstMax l = some m := by
        rw [← ih, hs]; rfl
      rw [List.orderedInsert]
      by_cases h : recDesc c m <;>
        simp [h, firstMax, hm]

theorem firstMax_mem {l : List Record} {m : Record} (h : firstMax l = some m) :
    m ∈ l := by
  induction l generalizing m with
  | nil => simp [firstMax] at h
  | cons c l ih =>
    simp only [firstMax] at h
    cases hf : firstMax l with
    | none =>
      rw [hf] at h
      simp at h
      simp [h]
    | some m' =>
      rw [hf] at h
      by_cases hd : recDesc c m'
      · simp [hd] at h
        simp [h]
      · simp [hd] at h
        subst h
        exact List.mem_cons_of_mem _ (ih hf)

theorem firstMax_isMax {l : List Record} {m : Record} (h : firstMax l = some m) :
    ∀ c ∈ l, keyLe (sortKey c) (sortKey m) := by
  induction l generalizing m with
  | nil => simp [firstMax] at h
  | cons a l ih =>
    simp only [firstMax] at h
    cases hf : firstMax l with
    | none =>
      rw [hf] at h
      simp at h
      have hl : l = [] := firstMax_eq_none.mp hf
      subst hl h
      intro c hc
      simp at hc
      subst hc
      exact keyLe_refl _
    | some m' =>
      rw [hf] at h
      by_cases hd : recDesc a m'
      · simp [hd] at h
        subst h
        intro c hc
        rcases List.mem_cons.mp hc with hc | hc
        · subst hc; exact keyLe_refl _
        · exact keyLe_trans (ih hf c hc) hd
      · simp [hd] at h
        subst h
        intro c hc
        rcases List.mem_cons.mp hc with hc | hc
        · subst hc
          exact keyLe_of_not_keyLe hd
        · exact ih hf c hc

theorem firstMax_split {l : List Record} {m : Record} (h : firstMax l = some m) :
    ∃ l₁ l₂, l = l₁ ++ m :: l₂ ∧ ∀ c ∈ l₁, ¬ keyLe (sortKey m) (sortKey c) := by
  induction l generalizing m with
  | nil => simp [firstMax] at h
  | cons a l ih =>
    simp only [firstMax] at h
    cases hf : firstMax l with
    | none =>
      rw [hf] at h
      simp at h
      subst h
      exact ⟨[], l, by simp⟩
    | some m' =>
      rw [hf] at h
      by_cases hd : recDesc a m'
      · simp [hd] at h
        subst h
        exact ⟨[], l, by simp⟩
      · simp [hd] at h
        subst h
        obtain ⟨l₁, l₂, hsplit, hbefore⟩ := ih hf
        refine ⟨a :: l₁, l₂, by simp [hsplit], ?_⟩
        intro c hc
        rcases List.mem_cons.mp hc with hc | hc
        · subst hc
          exact hd
        · exact hbefore c hc

/-! ### Claim theorems -/

/-- Claim C2: in automatic mode the Primary Selector keeps exactly the
records whose `error` is falsy, fails with the no-readable-files error
iff none remain, and otherwise returns the path of the earliest record
whose sort key `(score, nrows or 0, size or 0)` is maximal — descending
sort with ties at every tuple level broken by the original discovery
order, hence deterministic. -/
theorem selectAuto_picks_first_max (catalog : List Record) :
    (selectAuto catalog = .error .noReadableFiles ↔
      catalog.filter (fun c => !errTruthy c) = []) ∧
    (catalog.filter (fun c => !errTruthy c) ≠ [] →
      ∃ l₁ m l₂,
        catalog.filter (fun c => !errTruthy c) = l₁ ++ m :: l₂ ∧
        selectAuto catalog = .ok m.path ∧
        (∀ c ∈ catalog.filter (fun c => !errTruthy c),
          keyLe (sortKey c) (sortKey m)) ∧
        (∀ c ∈ l₁, ¬ keyLe (sortKey m) (sortKey c))) := by
  have hperm := List.perm_insertionSort recDesc
    (catalog.filter (fun c => !errTruthy c))
  constructor
  · constructor
    · intro h
      unfold selectAuto at h
      cases hs : List.insertionSort recDesc
          (catalog.filter (fun c => !errTruthy c)) with
      | nil =>
        rw [hs] at hperm
        exact hperm.symm.eq_nil
      | cons m rest =>
        rw [hs] at h
        simp at h
    · intro h
      unfold selectAuto
      rw [h]
      rfl
  · intro hne
    cases hs : List.insertionSort recDesc
        (catalog.filter (fun c => !errTruthy c)) with
    | nil =>
      rw [hs] at hperm
      exact absurd hperm.symm.eq_nil hne
    | cons m rest =>
      have hm : firstMax (catalog.filter (fun c => !errTruthy c)) = some m := by
        rw [← head_insertionSort_eq_firstMax, hs]
        rfl
      obtain ⟨l₁, l₂, hsplit, hbefore⟩ := firstMax_split hm
      refine ⟨l₁, m, l₂, hsplit, ?_, firstMax_isMax hm, hbefore⟩
      unfold selectAuto
      rw [hs]

/-- Witness for C2 at the concrete catalog `catMix`. -/
theorem selectAuto_picks_first_max_witness :
    catMix.filter (fun c => !errTruthy c) ≠ [] ∧
    ∃ l₁ m l₂,
      catMix.filter (fun c => !errTruthy c) = l₁ ++ m :: l₂ ∧
      selectAuto catMix = .ok m.path ∧
      (∀ c ∈ catMix.filter (fun c => !errTruthy c),
        keyLe (sortKey c) (sortKey m)) ∧
      (∀ c ∈ l₁, ¬ keyLe (sortKey m) (sortKey c)) :=
  ⟨by decide, (selectAuto_picks_first_max catMix).2 (by decide)⟩

/-! ### Shape lemmas for `infer_file` -/

theorem infer_file_ok (env : Env) (fp : String) (df : Frame)
    (hext : supportedExt (fileExt fp) = true) (hread : env.read fp = .ok df) :
    infer_file env fp =
      { path := fp, ext := fileExt fp, size := env.size fp
        nrows := some df.nrows, ncols := some df.ncols
        columns := some (df.cols.take 20)
        score := some (scoreOf (signalsOf df.cols) df.nrows df.ncols)
        signals := some (signalsOf df.cols) } := by
  simp [infer_file, hext, hread]

theorem infer_file_unsupported (env : Env) (fp : String)
    (h : supportedExt (fileExt fp) = false) :
    infer_file env fp =
      { path := fp, ext := fileExt fp, size := env.size fp
        error := some "unsupported_ext" } := by
  simp [infer_file, h]

theorem infer_file_exn (env : Env) (fp : String) (msg : String)
    (hext : supportedExt (fileExt fp) = true) (hread : env.read fp = .exn msg) :
    infer_file env fp =
      { path := fp, ext := fileExt fp, size := env.size fp
        error := some msg } := by
  simp [infer_file, hext, hread]

theorem infer_file_path (env : Env) (fp : String) :
    (infer_file env fp).path = fp := by
  cases hext : supportedExt (fileExt fp) with
  | false => rw [infer_file_unsupported env fp hext]
  | true =>
    cases hread : env.read fp with
    | exn msg => rw [infer_file_exn env fp msg hext hread]
    | ok df => rw [infer_file_ok env fp df hext hread]

theorem anyKey_of_mem (keys lc : List String) (k : String)
    (hk : k ∈ keys) (hl : k ∈ lc) : anyKey keys lc = true := by
  unfold anyKey
  rw [List.any_eq_true]
  exact ⟨k, hk, by simpa using hl⟩

/-- Claim C1: for every successfully sampled candidate the four signals
are exact membership tests of the fixed keyword sets among the lowercased
column names, and the score equals 3 when has_unit and has_time are both
true (else 0), plus 2 if has_treat, plus 1 if has_outcome, plus
0.5 * row_count / 1_000_000 + 0.1 * column_count; in particular, for a
candidate whose columns are exactly unit, time, treat, y in any letter
case, all four signals are true and the score is at least 6. -/
theorem scorer_signals_and_formula (env : Env) (fp : String) (df : Frame)
    (hext : supportedExt (fileExt fp) = true) (hread : env.read fp = .ok df) :
    ((infer_file env fp).signals = some
      { has_unit := anyKey unitKeys (lowerCols df.cols)
        has_time := anyKey timeKeys (lowerCols df.cols)
        has_treat := anyKey treatKeys (lowerCols df.cols)
        has_outcome := anyKey outcomeKeys (lowerCols df.cols) } ∧
     (infer_file env fp).score = some
       (((0 : ℚ)
         + (if anyKey unitKeys (lowerCols df.cols) ∧
              anyKey timeKeys (lowerCols df.cols) then 3 else 0)
         + (if anyKey treatKeys (lowerCols df.cols) then 2 else 0)
         + (if anyKey outcomeKeys (lowerCols df.cols) then 1 else 0))
         + ((1 / 2) * (df.nrows : ℚ) / 1000000
            + (1 / 10) * (df.ncols : ℚ)))) ∧
    ((∀ x, x ∈ lowerCols df.cols ↔
        x ∈ (["unit", "time", "treat", "y"] : List String)) →
      (infer_file env fp).signals = some ⟨true, true, true, true⟩ ∧
      (6 : ℚ) ≤ (infer_file env fp).score.getD 0) := by
  have hrec := infer_file_ok env fp df hext hread
  refine ⟨⟨by rw [hrec]; rfl, by rw [hrec]; rfl⟩, ?_⟩
  intro h
  have hsig : signalsOf df.cols = ⟨true, true, true, true⟩ := by
    unfold signalsOf
    have h1 := anyKey_of_mem unitKeys (lowerCols df.cols) "unit"
      (by simp [unitKeys]) ((h "unit").mpr (by simp))
    have h2 := anyKey_of_mem timeKeys (lowerCols df.cols) "time"
      (by simp [timeKeys]) ((h "time").mpr (by simp))
    have h3 := anyKey_of_mem treatKeys (lowerCols df.cols) "treat"
      (by simp [treatKeys]) ((h "treat").mpr (by simp))
    have h4 := anyKey_of_mem outcomeKeys (lowerCols df.cols) "y"
      (by simp [outcomeKeys]) ((h "y").mpr (by simp))
    rw [h1, h2, h3, h4]
  constructor
  · rw [hrec]
    simp [hsig]
  · rw [hrec]
    have hn : (0 : ℚ) ≤ (1 / 2) * (df.nrows : ℚ) / 1000000 := by positivity
    have hc : (0 : ℚ) ≤ (1 / 10) * (df.ncols : ℚ) := by positivity
    simp only [Option.getD_some]
    unfold scoreOf
    rw [hsig]
    norm_num
    linarith

/-- Witness for C1: a csv whose columns are Unit, TIME, Treat, Y. -/
theorem scorer_signals_and_formula_witness :
    (infer_file envU "data/a.csv").signals = some ⟨true, true, true, true⟩ ∧
    (6 : ℚ) ≤ (infer_file envU "data/a.csv").score.getD 0 := by
  have h := scorer_signals_and_formula envU "data/a.csv"
    ⟨1000, ["Unit", "TIME", "Treat", "Y"]⟩ (by decide) rfl
  refine h.2 ?_
  intro x
  have hl : lowerCols ["Unit", "TIME", "Treat", "Y"] =
      ["unit", "time", "treat", "y"] := by decide
  rw [show (⟨1000, ["Unit", "TIME", "Treat", "Y"]⟩ : Frame).cols =
    ["Unit", "TIME", "Treat", "Y"] from rfl, hl]

/-- Claim C3: the Sampler never raises — an unsupported extension yields
the `unsupported_ext` error record with no read attempted (the result is
the same under any read oracle), an exception during a read becomes an
error record carrying its message, and mapping `infer_file` over the
candidate list yields exactly one record per candidate. -/
theorem sampler_never_raises (env : Env) (fp : String) (files : List String) :
    (supportedExt (fileExt fp) = false →
      infer_file env fp =
        { path := fp, ext := fileExt fp, size := env.size fp
          error := some "unsupported_ext" } ∧
      (∀ r₁ r₂ : String → ReadResult,
        infer_file { env with read := r₁ } fp =
          infer_file { env with read := r₂ } fp)) ∧
    (∀ msg, supportedExt (fileExt fp) = true → env.read fp = .exn msg →
      infer_file env fp =
        { path := fp, ext := fileExt fp, size := env.size fp
          error := some msg }) ∧
    (files.map (infer_file env)).length = files.length := by
  refine ⟨?_, ?_, List.length_map _ _⟩
  · intro h
    refine ⟨infer_file_unsupported env fp h, ?_⟩
    intro r₁ r₂
    rw [infer_file_unsupported { env with read := r₁ } fp h,
      infer_file_unsupported { env with read := r₂ } fp h]
  · intro msg hext hread
    exact infer_file_exn env fp msg hext hread

/-- Witness for C3 at an `.xlsx` candidate and at a raising reader. -/
theorem sampler_never_raises_witness :
    (infer_file envX "data/only.xlsx" =
      { path := "data/only.xlsx", ext := ".xlsx", size := 5
        error := some "unsupported_ext" } ∧
     infer_file { envX with read := fun _ => .ok ⟨1, ["a"]⟩ } "data/only.xlsx" =
       infer_file { envX with read := fun _ => .exn "zzz" } "data/only.xlsx") ∧
    infer_file envE "data/a.csv" =
      { path := "data/a.csv", ext := ".csv", size := 100
        error := some "boom" } ∧
    ((["x", "y"].map (infer_file envE)).length = 2) := by
  have h1 := (sampler_never_raises envX "data/only.xlsx" ["x", "y"]).1 (by decide)
  have h2 := (sampler_never_raises envE "data/a.csv" ["x", "y"]).2.1 "boom"
    (by decide) rfl
  have h3 := (sampler_never_raises envE "data/a.csv" ["x", "y"]).2.2
  exact ⟨⟨h1.1, h1.2 (fun _ => .ok ⟨1, ["a"]⟩) (fun _ => .exn "zzz")⟩, h2, h3⟩

/-- Claim C4: every record produced by the Sampler has a populated
`error` field XOR the full set of row_count, column_count, columns,
signals and score; never both, never neither. -/
theorem record_error_xor_fields (env : Env) (fp : String) :
    Xor'
      ((infer_file env fp).error.isSome = true)
      ((infer_file env fp).nrows.isSome = true ∧
       (infer_file env fp).ncols.isSome = true ∧
       (infer_file env fp).columns.isSome = true ∧
       (infer_file env fp).score.isSome = true ∧
       (infer_file env fp).signals.isSome = true) := by
  cases hext : supportedExt (fileExt fp) with
  | false =>
    rw [infer_file_unsupported env fp hext]
    simp [Xor']
  | true =>
    cases hread : env.read fp with
    | exn msg =>
      rw [infer_file_exn env fp msg hext hread]
      simp [Xor']
    | ok df =>
      rw [infer_file_ok env fp df hext hread]
      simp [Xor']

/-- Claim C10: signals and score are computed from the complete column
list while the record's `columns` field keeps only the first 20 names, so
a keyword column past position 20 still sets its signal and contributes
to the score although it is absent from the persisted sample. -/
theorem signals_use_full_columns (env : Env) (fp : String) (df : Frame)
    (c : String)
    (hext : supportedExt (fileExt fp) = true) (hread : env.read fp = .ok df)
    (hc : c ∈ df.cols) (hc20 : c ∉ df.cols.take 20)
    (hlow : lowerStr c = "treat") :
    (infer_file env fp).columns = some (df.cols.take 20) ∧
    (∀ cols, (infer_file env fp).columns = some cols → c ∉ cols) ∧
    (infer_file env fp).signals = some (signalsOf df.cols) ∧
    (infer_file env fp).score =
      some (scoreOf (signalsOf df.cols) df.nrows df.ncols) ∧
    (signalsOf df.cols).has_treat = true ∧
    (2 : ℚ) ≤ scoreOf (signalsOf df.cols) df.nrows df.ncols := by
  have hrec := infer_file_ok env fp df hext hread
  have htr : (signalsOf df.cols).has_treat = true := by
    unfold signalsOf
    exact anyKey_of_mem treatKeys (lowerCols df.cols) "treat"
      (by simp [treatKeys]) (hlow ▸ List.mem_map_of_mem lowerStr hc)
  refine ⟨by rw [hrec], ?_, by rw [hrec], by rw [hrec], htr, ?_⟩
  · intro cols hcols
    rw [hrec] at hcols
    simp only [Option.some.injEq] at hcols
    rw [← hcols]
    exact hc20
  unfold scoreOf
  rw [htr]
  have i1 : (0 : ℚ) ≤
      (if (signalsOf df.cols).has_unit ∧ (signalsOf df.cols).has_time
        then 3 else 0) := by
    split <;> norm_num
  have i2 : (0 : ℚ) ≤ (if (signalsOf df.cols).has_outcome then 1 else 0) := by
    split <;> norm_num
  have hn : (0 : ℚ) ≤ (1 / 2) * (df.nrows : ℚ) / 1000000 := by positivity
  have hcn : (0 : ℚ) ≤ (1 / 10) * (df.ncols : ℚ) := by positivity
  norm_num
  linarith

/-- Witness for C10: a frame whose 21st column is TREAT. -/
theorem signals_use_full_columns_witness :
    (infer_file envW21 "data/a.csv").columns = some (df21.cols.take 20) ∧
    (∀ cols, (infer_file envW21 "data/a.csv").columns = some cols →
      "TREAT" ∉ cols) ∧
    (infer_file envW21 "data/a.csv").signals = some (signalsOf df21.cols) ∧
    (infer_file envW21 "data/a.csv").score =
      some (scoreOf (signalsOf df21.cols) df21.nrows df21.ncols) ∧
    (signalsOf df21.cols).has_treat = true ∧
    (2 : ℚ) ≤ scoreOf (signalsOf df21.cols) df21.nrows df21.ncols :=
  signals_use_full_columns envW21 "data/a.csv" df21 "TREAT" (by decide) rfl
    (by decide) (by decide) (by decide)

/-! ### Lexicographic order lemmas for enumeration -/

theorem chLe_total : ∀ a b : List Char, chLe a b = true ∨ chLe b a = true := by
  intro a
  induction a with
  | nil => intro b; left; rfl
  | cons x xs ih =>
    intro b
    cases b with
    | nil => right; rfl
    | cons y ys =>
      by_cases hxy : x = y
      · subst hxy
        simp only [chLe, if_pos rfl]
        exact ih ys
      · rcases lt_trichotomy x y with h | h | h
        · left
          simp [chLe, hxy, h]
        · exact absurd h hxy
        · right
          simp [chLe, Ne.symm hxy, h]

theorem chLe_trans : ∀ a b c : List Char,
    chLe a b = true → chLe b c = true → chLe a c = true := by
  intro a
  induction a with
  | nil => intro b c _ _; rfl
  | cons x xs ih =>
    intro b c h1 h2
    cases b with
    | nil => simp [chLe] at h1
    | cons y ys =>
      cases c with
      | nil => simp [chLe] at h2
      | cons z zs =>
        by_cases hxy : x = y
        · subst hxy
          simp only [chLe, if_pos rfl] at h1
          by_cases hyz : x = z
          · subst hyz
            simp only [chLe, if_pos rfl] at h2 ⊢
            exact ih ys zs h1 h2
          · simp only [chLe, if_neg hyz] at h2 ⊢
            exact h2
        · simp only [chLe, if_neg hxy] at h1
          have hxylt : x < y := of_decide_eq_true h1
          by_cases hyz : y = z
          · subst hyz
            simp only [chLe, if_neg hxy]
            exact h1
          · simp only [chLe, if_neg hyz] at h2
            have hyzlt : y < z := of_decide_eq_true h2
            have hxz : x < z := lt_trans hxylt hyzlt
            simp [chLe, ne_of_lt hxz, hxz]

/-- Claim C5: enumeration returns the union over all patterns of the
recursive glob results, deduplicated and sorted lexicographically; the
engine fails with the directory-not-found error when the root is not a
directory, and with the no-files-found error when the union is empty. -/
theorem enumeration_spec (env : Env) (args : Args) :
    List.Sorted strLeP (filesOf env args) ∧
    (filesOf env args).Nodup ∧
    (∀ p, p ∈ filesOf env args ↔
      ∃ pat ∈ patternsOf args, p ∈ env.glob args.data_dir pat) ∧
    (env.isdir args.data_dir = false →
      mainDir env args = ⟨.failed .dirNotFound, none⟩) ∧
    (env.isdir args.data_dir = true → filesOf env args = [] →
      mainDir env args = ⟨.failed .noFilesFound, none⟩) := by
  have hperm := List.perm_insertionSort strLeP
    (((patternsOf args).map (env.glob args.data_dir)).flatten).dedup
  refine ⟨?_, ?_, ?_, ?_, ?_⟩
  · exact @List.sorted_insertionSort String strLeP _
      ⟨fun a b => chLe_total a.toList b.toList⟩
      ⟨fun a b c h1 h2 => chLe_trans a.toList b.toList c.toList h1 h2⟩ _
  · exact hperm.nodup_iff.mpr (List.nodup_dedup _)
  · intro p
    unfold filesOf enumerate
    rw [hperm.mem_iff, List.mem_dedup, List.mem_flatten]
    constructor
    · rintro ⟨l, hl, hpl⟩
      obtain ⟨pat, hpat, rfl⟩ := List.mem_map.mp hl
      exact ⟨pat, hpat, hpl⟩
    · rintro ⟨pat, hpat, hppat⟩
      exact ⟨env.glob args.data_dir pat, List.mem_map_of_mem _ hpat, hppat⟩
  · intro h
    simp [mainDir, h]
  · intro hdir hfe
    simp [mainDir, hdir, hfe]

/-- Witness for C5 over the concrete two-pattern environment `envG`. -/
theorem enumeration_spec_witness :
    ("data/a.csv" ∈ filesOf envG argsG ↔
      ∃ pat ∈ patternsOf argsG, "data/a.csv" ∈ envG.glob argsG.data_dir pat) ∧
    mainDir envG argsBad = ⟨.failed .dirNotFound, none⟩ ∧
    mainDir envG argsNone = ⟨.failed .noFilesFound, none⟩ :=
  ⟨(enumeration_spec envG argsG).2.2.1 "data/a.csv",
   (enumeration_spec envG argsBad).2.2.2.1 (by decide),
   (enumeration_spec envG argsNone).2.2.2.2 (by decide) (by decide)⟩

/-! ### Override selection -/

theorem filter_path_congr (cand : String) :
    ∀ l₁ l₂ : List Record, l₂.map Record.path = l₁.map Record.path →
      (l₂.filter (fun c =>
        c.path = cand || basename c.path = basename cand)).map Record.path =
      (l₁.filter (fun c =>
        c.path = cand || basename c.path = basename cand)).map Record.path := by
  intro l₁
  induction l₁ with
  | nil =>
    intro l₂ h
    have h0 : l₂ = [] := by simpa using h
    subst h0
    rfl
  | cons a l ih =>
    intro l₂ h
    cases l₂ with
    | nil => simp at h
    | cons b l₂t =>
      simp only [List.map_cons, List.cons.injEq] at h
      obtain ⟨hpath, hrest⟩ := h
      simp only [List.filter_cons, hpath]
      by_cases hp : (decide (a.path = cand) ||
          decide (basename a.path = basename cand)) = true
      · simp only [if_pos hp, List.map_cons, hpath]
        rw [ih l₂t hrest]
      · simp only [if_neg hp]
        exact ih l₂t hrest

/-- Claim C6: in explicit-override mode the Primary Selector matches by
exact path equality or basename equality, fails with the
primary-file-not-found error iff no record matches, and otherwise returns
the first matching record regardless of its score or error state — the
selection reads nothing but the paths, so any catalog with the same paths
selects the same path. -/
theorem override_selection_spec (catalog : List Record) (cand : String) :
    (selectOverride catalog cand = .error .primaryNotFound ↔
      catalog.filter (fun c =>
        c.path = cand || basename c.path = basename cand) = []) ∧
    (∀ r, selectOverride catalog cand = .ok r →
      r ∈ catalog ∧ (r.path = cand ∨ basename r.path = basename cand) ∧
      ∃ l₂, catalog.filter (fun c =>
        c.path = cand || basename c.path = basename cand) = r :: l₂) ∧
    (∀ catalog2 : List Record,
      catalog2.map Record.path = catalog.map Record.path →
      (selectOverride catalog2 cand).map Record.path =
        (selectOverride catalog cand).map Record.path) := by
  refine ⟨?_, ?_, ?_⟩
  · unfold selectOverride
    cases hf : catalog.filter (fun c =>
        c.path = cand || basename c.path = basename cand) with
    | nil => simp
    | cons m l => simp
  · intro r hr
    unfold selectOverride at hr
    cases hf : catalog.filter (fun c =>
        c.path = cand || basename c.path = basename cand) with
    | nil =>
      rw [hf] at hr
      simp at hr
    | cons m l =>
      rw [hf] at hr
      simp only [Except.ok.injEq] at hr
      rw [hr] at hf
      have hm : r ∈ catalog.filter (fun c =>
          c.path = cand || basename c.path = basename cand) := by
        rw [hf]; exact List.mem_cons_self r l
      refine ⟨List.mem_of_mem_filter hm, ?_, l, by rw [hr]⟩
      have := List.of_mem_filter hm
      simpa using this
  · intro cat2 hmap
    have hf := filter_path_congr cand catalog cat2 hmap
    unfold selectOverride
    cases h1 : catalog.filter (fun c =>
        c.path = cand || basename c.path = basename cand) with
    | nil =>
      rw [h1] at hf
      simp only [List.map_nil, List.map_eq_nil_iff] at hf
      rw [hf]
    | cons m l =>
      rw [h1] at hf
      cases h2 : cat2.filter (fun c =>
          c.path = cand || basename c.path = basename cand) with
      | nil =>
        rw [h2] at hf
        simp at hf
      | cons m2 l2 =>
        rw [h2] at hf
        simp only [List.map_cons, List.cons.injEq] at hf
        exact congrArg Except.ok hf.1

/-- Witness for C6: the basename override selects the errored
lowest-information record `rX`, a non-matching override fails, and a
catalog with the same paths but different metadata selects the same
path. -/
theorem override_selection_spec_witness :
    selectOverride catOv "sub2/x.xlsx" = .ok rX ∧
    (rX ∈ catOv ∧
      (rX.path = "sub2/x.xlsx" ∨ basename rX.path = basename "sub2/x.xlsx") ∧
      ∃ l₂, catOv.filter (fun c =>
        c.path = "sub2/x.xlsx" ||
          basename c.path = basename "sub2/x.xlsx") = rX :: l₂) ∧
    selectOverride catOv "zzz.csv" = .error .primaryNotFound ∧
    (selectOverride catOv2 "sub2/x.xlsx").map Record.path =
      (selectOverride catOv "sub2/x.xlsx").map Record.path := by
  refine ⟨by decide, ?_, ?_, ?_⟩
  · exact (override_selection_spec catOv "sub2/x.xlsx").2.1 rX (by decide)
  · exact (override_selection_spec catOv "zzz.csv").1.mpr (by decide)
  · exact (override_selection_spec catOv "sub2/x.xlsx").2.2 catOv2 (by decide)

/-! ### Branch lemmas for `mainDir` -/

theorem mainDir_not_dir (env : Env) (args : Args)
    (h : env.isdir args.data_dir = false) :
    mainDir env args = ⟨.failed .dirNotFound, none⟩ := by
  simp [mainDir, h]

theorem mainDir_no_files (env : Env) (args : Args)
    (hdir : env.isdir args.data_dir = true) (hfe : filesOf env args = []) :
    mainDir env args = ⟨.failed .noFilesFound, none⟩ := by
  simp [mainDir, hdir, hfe]

theorem mainDir_sel_err (env : Env) (args : Args) (e : ConfigError)
    (hdir : env.isdir args.data_dir = true) (hfe : filesOf env args ≠ [])
    (hsel : selectionOf env args = .error e) :
    mainDir env args = ⟨.failed e, none⟩ := by
  simp [mainDir, hdir, hfe, hsel]

theorem mainDir_sel_ok (env : Env) (args : Args) (sel : String)
    (hdir : env.isdir args.data_dir = true) (hfe : filesOf env args ≠ [])
    (hsel : selectionOf env args = .ok sel) :
    mainDir env args =
      ⟨if args.catalog_only then .exitedOk else .ranAgent sel,
       if env.writeOk then
         some ⟨env.abspath args.data_dir, patternsOf args, sel,
           catalogOf env args⟩
       else none⟩ := by
  by_cases hc : args.catalog_only = true <;>
    simp [mainDir, hdir, hfe, hsel, hc]

/-- Counterexample to C7 as stated: with the catalog-only flag set and
discovery running over a directory holding exactly one (unsupported)
file, no primary can be selected; the run then exits non-zero before the
catalog save is reached, so nothing is persisted and the exit is not
successful. -/
theorem catalog_only_counterexample :
    argsX.catalog_only = true ∧
    envX.isdir argsX.data_dir = true ∧
    filesOf envX argsX ≠ [] ∧
    mainDir envX argsX = ⟨.failed .noReadableFiles, none⟩ ∧
    ¬ ((mainDir envX argsX).outcome = .exitedOk ∧
       (mainDir envX argsX).persisted.isSome = true) := by decide

/-- Claim C7 as amended: when the catalog-only flag is set and discovery
ran, the engine never reaches the Analysis Agent; if a primary file was
selected it persists the catalog (when the write succeeds) and exits
successfully, but if no primary can be selected it exits non-zero without
persisting the catalog. -/
theorem catalog_only_skips_agent (env : Env) (args : Args)
    (hco : args.catalog_only = true)
    (hdir : env.isdir args.data_dir = true)
    (hfe : filesOf env args ≠ []) :
    (∀ sel, selectionOf env args = .ok sel →
      mainDir env args =
        ⟨.exitedOk,
         if env.writeOk then
           some ⟨env.abspath args.data_dir, patternsOf args, sel,
             catalogOf env args⟩
         else none⟩) ∧
    (∀ e, selectionOf env args = .error e →
      mainDir env args = ⟨.failed e, none⟩) ∧
    (∀ p, (mainDir env args).outcome ≠ .ranAgent p) := by
  refine ⟨?_, ?_, ?_⟩
  · intro sel hsel
    rw [mainDir_sel_ok env args sel hdir hfe hsel, hco]
    rfl
  · intro e hsel
    exact mainDir_sel_err env args e hdir hfe hsel
  · intro p
    cases hsel : selectionOf env args with
    | error e =>
      rw [mainDir_sel_err env args e hdir hfe hsel]
      simp
    | ok sel =>
      rw [mainDir_sel_ok env args sel hdir hfe hsel, hco]
      simp

/-- Witness for the amended C7: catalog-only with an explicit override of
the sole (unsupported) file persists the catalog and exits successfully
without the agent. -/
theorem catalog_only_skips_agent_witness :
    mainDir envX argsXo =
      ⟨.exitedOk,
       if envX.writeOk then
         some ⟨envX.abspath argsXo.data_dir, patternsOf argsXo,
           "data/only.xlsx", catalogOf envX argsXo⟩
       else none⟩ ∧
    (∀ p, (mainDir envX argsXo).outcome ≠ .ranAgent p) :=
  ⟨(catalog_only_skips_agent envX argsXo (by decide) (by decide)
      (by decide)).1 "data/only.xlsx" (by decide),
   (catalog_only_skips_agent envX argsXo (by decide) (by decide)
      (by decide)).2.2⟩

/-- Claim C8: a catalog write failure is swallowed — the run's outcome is
the same whatever the write oracle says, and a failed write merely leaves
no persisted artifact. -/
theorem catalog_write_failure_ignored (env : Env) (args : Args) (b : Bool) :
    (mainDir { env with writeOk := b } args).outcome =
      (mainDir env args).outcome ∧
    (mainDir { env with writeOk := false } args).persisted = none := by
  have efiles : ∀ w, filesOf { env with writeOk := w } args = filesOf env args :=
    fun _ => rfl
  have esel : ∀ w, selectionOf { env with writeOk := w } args =
      selectionOf env args := fun _ => rfl
  have edir : ∀ w, ({ env with writeOk := w } : Env).isdir args.data_dir =
      env.isdir args.data_dir := fun _ => rfl
  constructor
  · by_cases h1 : env.isdir args.data_dir = false
    · rw [mainDir_not_dir env args h1,
        mainDir_not_dir { env with writeOk := b } args ((edir b).trans h1)]
    · have h1' : env.isdir args.data_dir = true := by
        cases h : env.isdir args.data_dir
        · exact absurd h h1
        · rfl
      by_cases h2 : filesOf env args = []
      · rw [mainDir_no_files env args h1' h2,
          mainDir_no_files { env with writeOk := b } args
            ((edir b).trans h1') ((efiles b).trans h2)]
      · cases hsel : selectionOf env args with
        | error e =>
          rw [mainDir_sel_err env args e h1' h2 hsel,
            mainDir_sel_err { env with writeOk := b } args e
              ((edir b).trans h1')
              (by rw [efiles b]; exact h2) ((esel b).trans hsel)]
        | ok sel =>
          rw [mainDir_sel_ok env args sel h1' h2 hsel,
            mainDir_sel_ok { env with writeOk := b } args sel
              ((edir b).trans h1')
              (by rw [efiles b]; exact h2) ((esel b).trans hsel)]
  · by_cases h1 : env.isdir args.data_dir = false
    · rw [mainDir_not_dir { env with writeOk := false } args
        ((edir false).trans h1)]
    · have h1' : env.isdir args.data_dir = true := by
        cases h : env.isdir args.data_dir
        · exact absurd h h1
        · rfl
      by_cases h2 : filesOf env args = []
      · rw [mainDir_no_files { env with writeOk := false } args
          ((edir false).trans h1') ((efiles false).trans h2)]
      · cases hsel : selectionOf env args with
        | error e =>
          rw [mainDir_sel_err { env with writeOk := false } args e
            ((edir false).trans h1')
            (by rw [efiles false]; exact h2) ((esel false).trans hsel)]
        | ok sel =>
          rw [mainDir_sel_ok { env with writeOk := false } args sel
            ((edir false).trans h1')
            (by rw [efiles false]; exact h2) ((esel false).trans hsel)]
          rfl

/-- Claim C9: whatever catalog artifact is persisted lists the candidate
records exactly in discovery order — the records of the deduplicated,
sorted enumeration in order, untouched by the selection sort. -/
theorem catalog_persists_discovery_order (env : Env) (args : Args)
    (sc : SavedCatalog) (h : (mainDir env args).persisted = some sc) :
    sc.files = (filesOf env args).map (infer_file env) ∧
    sc.files.map Record.path = filesOf env args := by
  have hfields : sc.files = (filesOf env args).map (infer_file env) := by
    by_cases h1 : env.isdir args.data_dir = false
    · rw [mainDir_not_dir env args h1] at h
      simp at h
    · have h1' : env.isdir args.data_dir = true := by
        cases hb : env.isdir args.data_dir
        · exact absurd hb h1
        · rfl
      by_cases h2 : filesOf env args = []
      · rw [mainDir_no_files env args h1' h2] at h
        simp at h
      · cases hsel : selectionOf env args with
        | error e =>
          rw [mainDir_sel_err env args e h1' h2 hsel] at h
          simp at h
        | ok sel =>
          rw [mainDir_sel_ok env args sel h1' h2 hsel] at h
          cases hw : env.writeOk with
          | false => rw [hw] at h; simp at h
          | true =>
            rw [hw] at h
            have h' : some (⟨env.abspath args.data_dir, patternsOf args, sel,
                catalogOf env args⟩ : SavedCatalog) = some sc := h
            rw [← Option.some.inj h']
            rfl
  refine ⟨hfields, ?_⟩
  rw [hfields, List.map_map]
  have hcomp : (Record.path ∘ infer_file env) = id :=
    funext fun fp => infer_file_path env fp
  rw [hcomp, List.map_id]

/-- Witness for C9 over the persisted run of `envX` with the explicit
override. -/
theorem catalog_persists_discovery_order_witness :
    (mainDir envX argsXo).persisted = some scX ∧
    scX.files = (filesOf envX argsXo).map (infer_file envX) ∧
    scX.files.map Record.path = filesOf envX argsXo :=
  ⟨by decide,
   (catalog_persists_discovery_order envX argsXo scX (by decide)).1,
   (catalog_persists_discovery_order envX argsXo scX (by decide)).2⟩

end AEA

